import Mathlib

/-!
Verification of the worktree change-tracking and reconciliation engine.

The Go sources are embedded shallowly:
* filesystem paths are segment lists (`FsPath`); `filepath.Join` on clean
  paths is list append, `filepath.Dir` is `dropLast`;
* the filesystem is a finite association list from paths to nodes, plus a
  set of "broken" paths on which every I/O operation fails (permission
  errors etc.) — this models the I/O error cases of `os.Stat`,
  `os.ReadFile` and friends;
* the git collaborator is an oracle record of branch / remote-tracking /
  upstream state, mutated explicitly by the operations that mutate it.

Definitions follow the Go sources in `internal/worktree` and the command
layer. Functions whose defining file is absent from the source tree (only
their tests, callers and design documents are present) are modelled from
the specification and marked `Modelled from the spec:` in their doc
comment.
-/

namespace WtSpec

/-- A filesystem path, as its list of clean path segments. -/
abbrev FsPath := List String

/-- A filesystem node: a regular file with content and modification time,
or a directory. -/
inductive Node where
  | file (content : String) (mtime : Nat)
  | dir
deriving DecidableEq, Repr

/-- Returns `true` on regular files, `false` on directories. -/
def Node.isFile : Node → Bool
  | .file _ _ => true
  | .dir => false

/-- The filesystem model: an association list from paths to nodes
(earlier entries shadow later ones), plus the set of paths on which any
I/O operation fails with a non-`IsNotExist` error. Deterministic walk
order is modelled by the order of the `nodes` list (lexical in every
concrete state used below). -/
structure FS where
  nodes : List (FsPath × Node)
  broken : List FsPath
deriving DecidableEq, Repr

/-- First-match association lookup. -/
def lookupNode : List (FsPath × Node) → FsPath → Option Node
  | [], _ => none
  | e :: rest, p => if e.1 = p then some e.2 else lookupNode rest p

/-- Overwrite-or-add of a binding. -/
def setNode : List (FsPath × Node) → FsPath → Node → List (FsPath × Node)
  | [], p, n => [(p, n)]
  | e :: rest, p, n => if e.1 = p then (p, n) :: rest else e :: setNode rest p n

/-- The node stored at `p`, if any. -/
def FS.find (fs : FS) (p : FsPath) : Option Node :=
  lookupNode fs.nodes p

/-- Write the node `n` at path `p`. -/
def FS.insert (fs : FS) (p : FsPath) (n : Node) : FS :=
  { fs with nodes := setNode fs.nodes p n }

/-- Result of `os.Stat`: the node, `IsNotExist`, or another I/O error. -/
inductive StatR where
  | ok (n : Node)
  | notExist
  | ioErr
deriving DecidableEq, Repr

/-- Embeds `os.Stat` over the model. -/
def FS.stat (fs : FS) (p : FsPath) : StatR :=
  if p ∈ fs.broken then .ioErr
  else
    match fs.find p with
    | some n => .ok n
    | none => .notExist

/-- Result of `os.ReadFile`: the content, `IsNotExist`, or another I/O
error (reading a directory errors). -/
inductive ReadR where
  | ok (content : String)
  | notExist
  | ioErr
deriving DecidableEq, Repr

/-- Embeds `os.ReadFile` over the model. -/
def FS.readFile (fs : FS) (p : FsPath) : ReadR :=
  if p ∈ fs.broken then .ioErr
  else
    match fs.find p with
    | some (.file c _) => .ok c
    | some .dir => .ioErr
    | none => .notExist

/-- Embeds `Exists` (worktree.go): `os.Stat` succeeded. -/
def FS.existsP (fs : FS) (p : FsPath) : Bool :=
  match fs.stat p with
  | .ok _ => true
  | _ => false

/-- All nonempty path segments of a path, shortest first. -/
def pathHeads : FsPath → List FsPath
  | [] => []
  | s :: rest => [s] :: (pathHeads rest).map (s :: ·)

/-- Create a directory node at each path of `l` that has no node yet.
(Model assumption: no path used as a directory is occupied by a regular
file, as `os.MkdirAll` would error there.) -/
def mkdirList (fs : FS) : List FsPath → FS
  | [] => fs
  | q :: rest =>
    match fs.find q with
    | some _ => mkdirList fs rest
    | none => mkdirList (fs.insert q .dir) rest

/-- Embeds `os.MkdirAll`: create every missing directory on the way to `p`. -/
def FS.mkdirAll (fs : FS) (p : FsPath) : FS :=
  mkdirList fs (pathHeads p)

/-- Embeds `os.RemoveAll`: delete the whole subtree rooted at `p`. -/
def FS.removeAll (fs : FS) (p : FsPath) : FS :=
  { fs with nodes := fs.nodes.filter (fun e => !(p.isPrefixOf e.1)) }

/-- The regular-file paths strictly below `dirP`, in walk order
(`filepath.Walk` skips directory entries in the walk functions below). -/
def FS.walkFiles (fs : FS) (dirP : FsPath) : List FsPath :=
  (fs.nodes.filter
    (fun e => dirP.isPrefixOf e.1 && !(e.1 == dirP) && e.2.isFile)).map (·.1)

/-- A copied node: file contents keep their bytes, the copy's mtime is
the time `now` of the operation. -/
def stampNode (now : Nat) : Node → Node
  | .file c _ => .file c now
  | .dir => .dir

/-- Embeds `copyDir` (worktree.go): recursively copy the subtree at `src` onto
`dst`, preserving structure. -/
def FS.copyDir (fs : FS) (src dst : FsPath) (now : Nat) : FS :=
  (fs.nodes.filter (fun e => src.isPrefixOf e.1)).foldl
    (fun f e => f.insert (dst ++ e.1.drop src.length) (stampNode now e.2)) fs

/-- The string form of an absolute path, for the path-encoding function. -/
def pathStr (p : FsPath) : String :=
  "/" ++ String.intercalate "/" p

/-- Split a string at `/` into its segments (`splitSegs "a/b" = ["a",
"b"]`, `splitSegs "a" = ["a"]`): the segmentation `filepath.Join`
performs on a clean relative path such as a branch name or a tracked
entry. -/
def splitSegsAux : List Char → List Char → List String
  | [], acc => [String.mk acc.reverse]
  | c :: rest, acc =>
    if c = '/' then String.mk acc.reverse :: splitSegsAux rest []
    else splitSegsAux rest (c :: acc)

/-- Segments of a clean relative path string. -/
def splitSegs (s : String) : List String :=
  splitSegsAux s.data []

/-- Embeds `encodeClaudePath` (memory.go): strip one leading `/`, prepend `-`,
replace every `/` and `.` by `-` (`strings.TrimPrefix` then a rune map,
written over the character list). -/
def encodeClaudePath (path : String) : String :=
  let p : List Char :=
    match path.data with
    | '/' :: rest => rest
    | l => l
  String.mk ('-' :: p.map (fun c => if c == '/' || c == '.' then '-' else c))

/-- Embeds `ClaudeMemoryDir` (memory.go): `<home>/.claude/projects/<encoded>/memory`.
The home directory is passed in (the Go code reads `os.UserHomeDir`). -/
def ClaudeMemoryDir (home : FsPath) (projectPath : String) : FsPath :=
  home ++ [".claude", "projects", encodeClaudePath projectPath, "memory"]

/-- The git collaborator's observable state: local branches, short names of
remote-tracking refs (`origin/x`), configured upstreams per branch, the
branches actually present on the origin remote (reachable by `git fetch`),
and the worktree paths with uncommitted changes. -/
structure Git where
  localBranches : List String
  remoteRefs : List String
  upstreams : List (String × String)
  originBranches : List String
  dirtyWorktrees : List FsPath
deriving DecidableEq, Repr

/-- Embeds `BranchExists` (worktree.go): `git rev-parse --verify <branch>`. -/
def Git.BranchExists (g : Git) (b : String) : Bool :=
  g.localBranches.contains b

/-- Embeds `RemoteBranchExists` (worktree.go): `git rev-parse --verify
refs/remotes/origin/<branch>` — existence of the same-named ref under the
`origin` remote. -/
def Git.RemoteBranchExists (g : Git) (b : String) : Bool :=
  g.remoteRefs.contains ("origin/" ++ b)

/-- Embeds `BranchUpstream` (worktree.go): the upstream tracking ref short name of
a branch, or `""` when none is configured. -/
def Git.BranchUpstream (g : Git) (b : String) : String :=
  match g.upstreams.find? (fun e => e.1 == b) with
  | some e => e.2
  | none => ""

/-- Embeds `FetchBranch` (worktree.go): `git fetch origin <branch>` — fails when
the branch is not on the remote, otherwise updates the remote-tracking
ref. -/
def Git.fetchBranch (g : Git) (b : String) : Option Git :=
  if g.originBranches.contains b then
    some { g with remoteRefs := ("origin/" ++ b) :: g.remoteRefs }
  else none

/-- Effect of `git worktree add -b <branch> …`: the local branch now
exists. -/
def Git.addLocal (g : Git) (b : String) : Git :=
  { g with localBranches := b :: g.localBranches }

/-- Embeds `HasUncommittedChanges` (repo layer): dirty-status query for a
worktree path. -/
def Git.HasUncommittedChanges (g : Git) (p : FsPath) : Bool :=
  g.dirtyWorktrees.contains p

/-- Embeds `Manager` (worktree.go), plus the snapshot base directory.
The snapshot base is part of the snapshot store whose file is not in the
source tree; per the design document it is a sibling of the worktree
base (`snapshots/<repo>/<branch>`). -/
structure Manager where
  RepoRoot : FsPath
  RepoName : String
  WorktreeBase : FsPath
  SnapshotBase : FsPath
deriving DecidableEq, Repr

/-- Embeds `WorktreePath` (worktree.go):
`filepath.Join(WorktreeBase, RepoName, branch)`; a branch name containing
`/` yields a nested directory. -/
def Manager.WorktreePath (m : Manager) (branch : String) : FsPath :=
  m.WorktreeBase ++ [m.RepoName] ++ splitSegs branch

/-- Modelled from the spec: `SnapshotPath` belongs to the snapshot store,
whose defining file is not in the source tree (only its tests, callers
and the design document are). Per §6 of the spec and the design document,
snapshots live at `snapshots/<repo>/<branch>`. -/
def SnapshotPath (m : Manager) (branch : String) : FsPath :=
  m.SnapshotBase ++ [m.RepoName] ++ splitSegs branch

/-- Embeds `MemorySnapshotPath` (memory.go): the `claude-memory` subdirectory of
the branch's snapshot directory. -/
def MemorySnapshotPath (m : Manager) (branch : String) : FsPath :=
  SnapshotPath m branch ++ ["claude-memory"]

/-- Embeds `RemoveMemorySnapshot` (memory.go): `os.RemoveAll` of the branch's
memory snapshot directory; removing a non-existent snapshot is not an
error. -/
def RemoveMemorySnapshot (m : Manager) (fs : FS) (branch : String) : FS :=
  fs.removeAll (MemorySnapshotPath m branch)

/-- Modelled from the spec: `RemoveSnapshot` (§4.1) deletes the branch's
snapshot directory tree and is idempotent; its defining file is not in
the source tree. It mirrors the in-source `RemoveMemorySnapshot`
(`os.RemoveAll` of the directory). -/
def RemoveSnapshot (m : Manager) (fs : FS) (branch : String) : FS :=
  fs.removeAll (SnapshotPath m branch)

/-- Embeds `WorktreeInfo` (worktree.go). -/
structure WorktreeInfo where
  Path : FsPath
  Branch : String
deriving DecidableEq, Repr

/-- The prune candidate filter (prune command, `RunE`): keep a worktree
iff its branch has an upstream configured and `RemoteBranchExists` is
false for the worktree's branch name. -/
def pruneCandidates (g : Git) (wts : List WorktreeInfo) : List WorktreeInfo :=
  wts.filter (fun wt =>
    !(g.BranchUpstream wt.Branch == "") && !(g.RemoteBranchExists wt.Branch))

/-- The prune-candidate test as the spec words it (§4.5 step 3): the
branch has an upstream tracking ref configured AND that upstream ref no
longer exists in the remote-tracking state. Stated for comparison with
the code's `pruneCandidates`. -/
def specPruneCandidate (g : Git) (wt : WorktreeInfo) : Bool :=
  !(g.BranchUpstream wt.Branch == "") &&
    !(g.remoteRefs.contains (g.BranchUpstream wt.Branch))

/-- The name of an immediate child of directory `d`, when `q` is one. -/
def childName (d q : FsPath) : Option String :=
  if d.isPrefixOf q then
    match q.drop d.length with
    | [name] => some name
    | _ => none
  else none

/-- Embeds `List` (worktree.go): enumerate the immediate subdirectories of
`WorktreeBase/RepoName`; each directory entry becomes a `WorktreeInfo`
whose `Branch` is the entry name. A missing base directory yields an
empty list without error. -/
def listWorktrees (m : Manager) (fs : FS) : List WorktreeInfo × Option Unit :=
  let dir := m.WorktreeBase ++ [m.RepoName]
  match fs.stat dir with
  | .notExist => ([], none)
  | .ioErr => ([], some ())
  | .ok (.file _ _) => ([], some ())
  | .ok .dir =>
    (fs.nodes.filterMap (fun e =>
      match childName dir e.1 with
      | some name => if e.2 == Node.dir then some ⟨dir ++ [name], name⟩ else none
      | none => none), none)

/-- Which git command `Create` (worktree.go) ran to make the worktree. -/
inductive CreateAction where
  | attachLocal
  | trackRemote
  | newFromHead
  | newFromBase (baseRef : String)
deriving DecidableEq, Repr

/-- Outcome of `Create` (worktree.go). -/
inductive CreateRes where
  | ok (p : FsPath) (a : CreateAction)
  | alreadyExists
  | baseBranchNotFound
deriving DecidableEq, Repr

/-- Embeds `Create` (worktree.go): refuse when the worktree already exists; make
the parent directory; with a base branch, resolve it locally or by
fetching, else fail with `baseBranchNotFound`; with no base branch,
resolve `branch` locally, else remotely, else create it from the current
head. The successful `git worktree add` creates the worktree directory.
(Model assumption: `git worktree add` itself succeeds.) -/
def Create (m : Manager) (g : Git) (fs : FS) (branch baseBranch : String) :
    CreateRes × FS × Git :=
  let wtPath := m.WorktreePath branch
  if fs.existsP wtPath then (.alreadyExists, fs, g)
  else
    let fs1 := fs.mkdirAll wtPath.dropLast
    if baseBranch != "" then
      if g.BranchExists baseBranch then
        (.ok wtPath (.newFromBase baseBranch), fs1.mkdirAll wtPath, g.addLocal branch)
      else
        match g.fetchBranch baseBranch with
        | none => (.baseBranchNotFound, fs1, g)
        | some g1 =>
          if g1.RemoteBranchExists baseBranch then
            (.ok wtPath (.newFromBase ("origin/" ++ baseBranch)),
              fs1.mkdirAll wtPath, g1.addLocal branch)
          else (.baseBranchNotFound, fs1, g1)
    else
      if g.BranchExists branch then
        (.ok wtPath .attachLocal, fs1.mkdirAll wtPath, g)
      else if g.RemoteBranchExists branch then
        (.ok wtPath .trackRemote, fs1.mkdirAll wtPath, g.addLocal branch)
      else
        (.ok wtPath .newFromHead, fs1.mkdirAll wtPath, g.addLocal branch)

/-- Outcome of `Remove` (worktree.go). -/
inductive RemoveRes where
  | ok
  | notFound
  | dirtyRefused
deriving DecidableEq, Repr

/-- Embeds `Remove` (worktree.go): refuse with `notFound` when no worktree
exists for the branch; without `force`, `git worktree remove` refuses a
dirty worktree; otherwise the worktree directory tree is removed. -/
def Remove (m : Manager) (g : Git) (fs : FS) (branch : String) (force : Bool) :
    RemoveRes × FS :=
  let wtPath := m.WorktreePath branch
  if !(fs.existsP wtPath) then (.notFound, fs)
  else if !force && g.HasUncommittedChanges wtPath then (.dirtyRefused, fs)
  else (.ok, fs.removeAll wtPath)

/-- Embeds `MergeStatus` constants of the worktree package. -/
inductive MergeStatus where
  | Merged
  | Conflict
  | Copied
  | Error
deriving DecidableEq, Repr

/-- Embeds `MergeResult`: per-entry reconciliation outcome. -/
structure MergeResult where
  Status : MergeStatus
  Err : Option Unit
deriving DecidableEq, Repr

/-- The structural merge tool as a function from the three input file
contents (base, left = main's current version, right = worktree's
version) to the merged content on a clean merge, or `none` on a conflict
(non-zero exit, no output written). -/
abbrev MergeTool := String → String → String → Option String

/-- Modelled from the spec: `mergeThreeWay` is dispatched to by
`MergeMemoryBack` but its defining file is not in the source tree. Per
§4.3 of the spec and the merge design document: invoke the tool with
(baseline, main's current version, worktree's version); zero exit writes
the tool's merged output into main, result `Merged`; non-zero exit
leaves main untouched, result `Conflict`; a failure to read any of the
three inputs is a tool-invocation error. -/
def mergeThreeWay (tool : MergeTool) (now : Nat) (fs : FS)
    (basePath dstPath srcPath : FsPath) : MergeResult × FS :=
  match fs.readFile basePath, fs.readFile dstPath, fs.readFile srcPath with
  | .ok b, .ok l, .ok r =>
    match tool b l r with
    | some merged => (⟨.Merged, none⟩, fs.insert dstPath (.file merged now))
    | none => (⟨.Conflict, none⟩, fs)
  | _, _, _ => (⟨.Error, some ()⟩, fs)

/-- Embeds `MergeMemoryBack` (memory revision of the merge engine, in source):
stat the worktree-side entry; a directory is recursively copied
(`Copied`); a file goes through three-way merge when its snapshot
baseline exists and the merge tool is available (`tool ≠ none` models
`exec.LookPath("mergiraf")` succeeding), otherwise it is copied directly
over main's version after creating main's parent directories. -/
def MergeMemoryBack (m : Manager) (home : FsPath) (tool : Option MergeTool)
    (now : Nat) (fs : FS) (wtPath : FsPath) (file branch : String) :
    MergeResult × FS :=
  let wtMemDir := ClaudeMemoryDir home (pathStr wtPath)
  let mainMemDir := ClaudeMemoryDir home (pathStr m.RepoRoot)
  let srcPath := wtMemDir ++ splitSegs file
  let dstPath := mainMemDir ++ splitSegs file
  match fs.stat srcPath with
  | .ioErr => (⟨.Error, some ()⟩, fs)
  | .notExist => (⟨.Error, some ()⟩, fs)
  | .ok .dir => (⟨.Copied, none⟩, fs.copyDir srcPath dstPath now)
  | .ok (.file _ _) =>
    let snapshotFile := MemorySnapshotPath m branch ++ splitSegs file
    match fs.stat snapshotFile, tool with
    | .ok _, some t => mergeThreeWay t now fs snapshotFile dstPath srcPath
    | _, _ =>
      let fs1 := fs.mkdirAll dstPath.dropLast
      match fs1.readFile srcPath with
      | .ok c => (⟨.Copied, none⟩, fs1.insert dstPath (.file c now))
      | _ => (⟨.Error, some ()⟩, fs1)

/-- Embeds `FileChange` (worktree.go). -/
structure FileChange where
  File : String
  Conflict : Bool
deriving DecidableEq, Repr

/-- Embeds `detectFileChange` (worktree.go): read the worktree copy (any read
error aborts); a source absent from main is a change that is never a
conflict; byte-identical contents are no change; differing contents are
a change, flagged a conflict when main's modification time is strictly
later than the worktree copy's. -/
def detectFileChange (fs : FS) (srcPath dstPath : FsPath) (file : String) :
    Except Unit (Option FileChange) :=
  match fs.readFile dstPath with
  | .ioErr => .error ()
  | .notExist => .error ()
  | .ok dstC =>
    match fs.readFile srcPath with
    | .notExist => .ok (some ⟨file, false⟩)
    | .ioErr => .error ()
    | .ok srcC =>
      if srcC == dstC then .ok none
      else
        let conflict :=
          match fs.stat srcPath, fs.stat dstPath with
          | .ok (.file _ sm), .ok (.file _ dm) => decide (dm < sm)
          | _, _ => false
        .ok (some ⟨file, conflict⟩)

/-- Walk loop of `detectDirChanges` (worktree.go): per walked file, the
per-file logic on the path relative to the entry root, joined back onto
the entry's own relative path; an error aborts the walk and the
accumulated changes are returned alongside it (the caller discards
them). -/
def detectDirChangesGo (fs : FS) (srcDir dstDir : FsPath) (baseFile : String) :
    List FsPath → List FileChange → List FileChange × Option Unit
  | [], acc => (acc, none)
  | p :: rest, acc =>
    let rel := p.drop dstDir.length
    let srcPath := srcDir ++ rel
    let file := baseFile ++ "/" ++ String.intercalate "/" rel
    match detectFileChange fs srcPath p file with
    | .error _ => (acc, some ())
    | .ok none => detectDirChangesGo fs srcDir dstDir baseFile rest acc
    | .ok (some c) => detectDirChangesGo fs srcDir dstDir baseFile rest (acc ++ [c])

/-- Embeds `detectDirChanges` (worktree.go): walk the worktree-side tree. -/
def detectDirChanges (fs : FS) (srcDir dstDir : FsPath) (baseFile : String) :
    List FileChange × Option Unit :=
  detectDirChangesGo fs srcDir dstDir baseFile (fs.walkFiles dstDir) []

/-- Entry loop of `DetectChanges` (worktree.go): a tracked entry absent
from the worktree is skipped; any I/O error returns `nil` with the error
(discarding everything accumulated); a directory entry is walked; a file
entry goes through the per-file logic. -/
def DetectChangesGo (m : Manager) (fs : FS) (wtPath : FsPath) :
    List String → List FileChange → List FileChange × Option Unit
  | [], acc => (acc, none)
  | file :: rest, acc =>
    let srcPath := m.RepoRoot ++ splitSegs file
    let dstPath := wtPath ++ splitSegs file
    match fs.stat dstPath with
    | .notExist => DetectChangesGo m fs wtPath rest acc
    | .ioErr => ([], some ())
    | .ok .dir =>
      match detectDirChanges fs srcPath dstPath file with
      | (_, some _) => ([], some ())
      | (cs, none) => DetectChangesGo m fs wtPath rest (acc ++ cs)
    | .ok (.file _ _) =>
      match detectFileChange fs srcPath dstPath file with
      | .error _ => ([], some ())
      | .ok none => DetectChangesGo m fs wtPath rest acc
      | .ok (some c) => DetectChangesGo m fs wtPath rest (acc ++ [c])

/-- Embeds `DetectChanges` (worktree.go). -/
def DetectChanges (m : Manager) (fs : FS) (wtPath : FsPath)
    (files : List String) : List FileChange × Option Unit :=
  DetectChangesGo m fs wtPath files []

/-- Walk loop of `DetectMemoryChanges` (memory revision): per walked file
of the worktree memory directory, the per-file logic against main's
memory directory; on an error the walk aborts and the accumulated
changes are returned together with the error. -/
def DetectMemoryChangesGo (fs : FS) (wtMemDir mainMemDir : FsPath) :
    List FsPath → List FileChange → List FileChange × Option Unit
  | [], acc => (acc, none)
  | p :: rest, acc =>
    let rel := p.drop wtMemDir.length
    let relStr := String.intercalate "/" rel
    let mainPath := mainMemDir ++ rel
    match detectFileChange fs mainPath p relStr with
    | .error _ => (acc, some ())
    | .ok none => DetectMemoryChangesGo fs wtMemDir mainMemDir rest acc
    | .ok (some c) => DetectMemoryChangesGo fs wtMemDir mainMemDir rest (acc ++ [c])

/-- Embeds `DetectMemoryChanges` (memory revision): nothing to detect when the
worktree has no memory directory; a stat error surfaces; otherwise walk
the worktree memory directory. The `branch` parameter is carried but
unused, as in the source. -/
def DetectMemoryChanges (m : Manager) (home : FsPath) (fs : FS)
    (wtPath : FsPath) (branch : String) : List FileChange × Option Unit :=
  let wtMemDir := ClaudeMemoryDir home (pathStr wtPath)
  match fs.stat wtMemDir with
  | .notExist => ([], none)
  | .ioErr => ([], some ())
  | .ok _ =>
    let mainMemDir := ClaudeMemoryDir home (pathStr m.RepoRoot)
    DetectMemoryChangesGo fs wtMemDir mainMemDir (fs.walkFiles wtMemDir) []

/-- Modelled from the spec: the commit step of the prune pass (§4.5 step
6). The final prune command is not in the source tree (the present
revision predates the snapshot store, calling the old two-argument
`MergeBack`); per the spec and the merge design document the commit step
removes the worktree, force-deletes the now-unnecessary local branch and
discards the branch's snapshot. -/
def pruneCommit (m : Manager) (g : Git) (fs : FS) (branch : String)
    (force : Bool) : RemoveRes × Git × FS :=
  match Remove m g fs branch force with
  | (.ok, fs1) =>
    (.ok, { g with localBranches := g.localBranches.erase branch },
      RemoveSnapshot m fs1 branch)
  | (r, fs1) => (r, g, fs1)

/-! ### Helper lemmas about the filesystem model -/

theorem lookupNode_set (l : List (FsPath × Node)) (p q : FsPath) (n : Node) :
    lookupNode (setNode l p n) q = if q = p then some n else lookupNode l q := by
  induction l with
  | nil =>
    simp only [setNode, lookupNode]
    by_cases h : q = p
    · rw [if_pos h.symm, if_pos h]
    · rw [if_neg (fun hh => h hh.symm), if_neg h]
  | cons e rest ih =>
    simp only [setNode]
    by_cases he : e.1 = p
    · rw [if_pos he]
      simp only [lookupNode]
      by_cases hq : q = p
      · rw [if_pos hq.symm, if_pos hq]
      · rw [if_neg (fun hh => hq hh.symm), if_neg hq,
          if_neg (fun hh => hq (he.symm.trans hh).symm)]
    · rw [if_neg he]
      simp only [lookupNode, ih]
      by_cases hq2 : e.1 = q
      · have hqp : ¬ q = p := fun hh => he (hq2.trans hh)
        simp [hq2, hqp]
      · by_cases hq : q = p <;> simp [hq, hq2, he]

theorem insert_find (fs : FS) (p q : FsPath) (n : Node) :
    (fs.insert p n).find q = if q = p then some n else fs.find q :=
  lookupNode_set fs.nodes p q n

theorem insert_broken (fs : FS) (p : FsPath) (n : Node) :
    (fs.insert p n).broken = fs.broken := rfl

theorem mkdirList_broken (fs : FS) (l : List FsPath) :
    (mkdirList fs l).broken = fs.broken := by
  induction l generalizing fs with
  | nil => rfl
  | cons a rest ih =>
    unfold mkdirList
    cases hfa : fs.find a with
    | some n => exact ih fs
    | none => exact (ih (fs.insert a .dir)).trans (insert_broken fs a .dir)

theorem mkdirList_find (l : List FsPath) (fs : FS) (q : FsPath) :
    (mkdirList fs l).find q =
      if q ∈ l ∧ fs.find q = none then some Node.dir else fs.find q := by
  induction l generalizing fs with
  | nil => simp [mkdirList]
  | cons a rest ih =>
    unfold mkdirList
    cases hfa : fs.find a with
    | some n =>
      rw [ih]
      by_cases hq : q = a
      · subst hq; simp [hfa]
      · simp [List.mem_cons, hq]
    | none =>
      rw [ih]
      by_cases hq : q = a
      · subst hq
        have h1 : (fs.insert q Node.dir).find q = some Node.dir := by
          rw [insert_find]; simp
        simp [h1, hfa]
      · have h1 : (fs.insert a Node.dir).find q = fs.find q := by
          rw [insert_find]; simp [hq]
        simp [h1, List.mem_cons, hq]

theorem mkdirAll_find (fs : FS) (p q : FsPath) :
    (fs.mkdirAll p).find q =
      if q ∈ pathHeads p ∧ fs.find q = none then some Node.dir else fs.find q :=
  mkdirList_find (pathHeads p) fs q

theorem mkdirAll_broken (fs : FS) (p : FsPath) :
    (fs.mkdirAll p).broken = fs.broken :=
  mkdirList_broken fs (pathHeads p)

theorem mkdirAll_find_some (fs : FS) (p q : FsPath) (n : Node)
    (h : fs.find q = some n) : (fs.mkdirAll p).find q = some n := by
  rw [mkdirAll_find]; simp [h]

theorem lookupNode_filter_not_under (l : List (FsPath × Node)) (p q : FsPath) :
    lookupNode (l.filter (fun e => !(p.isPrefixOf e.1))) q =
      if p.isPrefixOf q = true then none else lookupNode l q := by
  induction l with
  | nil => simp [lookupNode]
  | cons e rest ih =>
    by_cases he : e.1 = q
    · subst he
      cases hp : p.isPrefixOf e.1 with
      | true => simp [lookupNode, hp, ih]
      | false => simp [lookupNode, hp]
    · cases hp : p.isPrefixOf e.1 with
      | true => simp [lookupNode, hp, ih, he]
      | false => simp [lookupNode, hp, ih, he]

theorem removeAll_find (fs : FS) (p q : FsPath) :
    (fs.removeAll p).find q =
      if p.isPrefixOf q = true then none else fs.find q :=
  lookupNode_filter_not_under fs.nodes p q

theorem stat_ok_find (fs : FS) (p : FsPath) (n : Node)
    (h : fs.stat p = .ok n) : fs.find p = some n ∧ p ∉ fs.broken := by
  unfold FS.stat at h
  by_cases hb : p ∈ fs.broken
  · simp [hb] at h
  · refine ⟨?_, hb⟩
    rw [if_neg hb] at h
    cases hf : fs.find p with
    | none => rw [hf] at h; exact absurd h (by simp)
    | some n2 => rw [hf] at h; injection h with h2; rw [h2]

theorem stat_ok_file_readFile (fs : FS) (p : FsPath) (c : String) (t : Nat)
    (h : fs.stat p = .ok (.file c t)) : fs.readFile p = .ok c := by
  obtain ⟨hf, hb⟩ := stat_ok_find fs p _ h
  unfold FS.readFile
  rw [if_neg hb, hf]

theorem lookupNode_mem (l : List (FsPath × Node)) (q : FsPath) (n : Node)
    (h : lookupNode l q = some n) : (q, n) ∈ l := by
  induction l with
  | nil => simp [lookupNode] at h
  | cons e rest ih =>
    unfold lookupNode at h
    by_cases he : e.1 = q
    · rw [if_pos he] at h
      injection h with h2
      have he2 : e = (q, n) := by
        cases e
        simp_all
      rw [he2]
      exact List.mem_cons_self (q, n) rest
    · rw [if_neg he] at h
      exact List.mem_cons.mpr (Or.inr (ih h))

theorem append_mem_pathHeads (a b : FsPath) (h : a ≠ []) :
    a ∈ pathHeads (a ++ b) := by
  induction a with
  | nil => exact absurd rfl h
  | cons x a2 ih =>
    unfold pathHeads
    by_cases h2 : a2 = []
    · subst h2; simp
    · exact List.mem_cons.mpr
        (Or.inr (List.mem_map.mpr ⟨a2, ih h2, rfl⟩))

theorem mkdirAll_readFile_ok (fs : FS) (p q : FsPath) (c : String)
    (h : fs.readFile q = .ok c) : (fs.mkdirAll p).readFile q = .ok c := by
  unfold FS.readFile at h ⊢
  rw [mkdirAll_broken]
  by_cases hb : q ∈ fs.broken
  · simp [hb] at h
  · rw [if_neg hb] at h ⊢
    cases hf : fs.find q with
    | none => rw [hf] at h; exact absurd h (by simp)
    | some n => rw [hf] at h; rw [mkdirAll_find_some fs p q n hf]; exact h

theorem isPrefixOf_self (l : FsPath) : l.isPrefixOf l = true := by
  induction l with
  | nil => rfl
  | cons x rest ih => simp [List.isPrefixOf, ih]

theorem isPrefixOf_append (l t : FsPath) : l.isPrefixOf (l ++ t) = true := by
  induction l with
  | nil => simp [List.isPrefixOf]
  | cons x rest ih => simp [List.isPrefixOf, ih]

/-! ### C1: the prune candidate filter -/

/-- C1 counterexample: the claim's "candidate iff the branch's configured
upstream ref no longer exists in the remote-tracking state" is false on
the code. Branch `b` has upstream `origin/other`, which is absent from
the remote-tracking state (so the spec's test selects it), yet the code
tests existence of `origin/b` — which still exists — and does not select
it: the candidate list is empty. -/
theorem prune_candidate_spec_mismatch :
    specPruneCandidate ⟨[], ["origin/b"], [("b", "origin/other")], [], []⟩
        ⟨["w"], "b"⟩ = true ∧
    pruneCandidates ⟨[], ["origin/b"], [("b", "origin/other")], [], []⟩
        [⟨["w"], "b"⟩] = [] := by
  decide

/-- C1 (amended): in every prune pass, a worktree is selected as a prune
candidate iff its branch has an upstream tracking ref configured and the
same-named ref `origin/<branch>` no longer exists in the remote-tracking
state (the code checks `origin/<branch>`, not the configured upstream ref
itself); in particular a branch with no upstream configured never appears
in the candidate list. -/
theorem prune_candidate_iff (g : Git) (wts : List WorktreeInfo)
    (wt : WorktreeInfo) :
    wt ∈ pruneCandidates g wts ↔
      wt ∈ wts ∧ g.BranchUpstream wt.Branch ≠ "" ∧
        g.RemoteBranchExists wt.Branch = false := by
  simp [pruneCandidates, List.mem_filter, Bool.and_eq_true,
    Bool.not_eq_true', beq_eq_false_iff_ne, and_assoc]

/-! ### C2 and C3: the merge engine -/

/-- C2: for a file entry with a snapshot baseline present and the merge
tool available, a tool conflict (non-zero exit) yields result `Conflict`
and the filesystem — in particular main's version of the file — is
byte-identical to its state before the call. -/
theorem merge_conflict_preserves_main (m : Manager) (home : FsPath)
    (tool : MergeTool) (now : Nat) (fs : FS) (wtPath : FsPath)
    (file branch : String) (sc b l : String) (st bt lt : Nat)
    (hsrc : fs.stat (ClaudeMemoryDir home (pathStr wtPath) ++ splitSegs file) =
      .ok (.file sc st))
    (hsnap : fs.stat (MemorySnapshotPath m branch ++ splitSegs file) =
      .ok (.file b bt))
    (hdst : fs.stat (ClaudeMemoryDir home (pathStr m.RepoRoot) ++ splitSegs file) =
      .ok (.file l lt))
    (htool : tool b l sc = none) :
    MergeMemoryBack m home (some tool) now fs wtPath file branch =
      (⟨.Conflict, none⟩, fs) := by
  have hsr := stat_ok_file_readFile fs _ sc st hsrc
  have hbr := stat_ok_file_readFile fs _ b bt hsnap
  have hlr := stat_ok_file_readFile fs _ l lt hdst
  simp only [MergeMemoryBack, hsrc, hsnap, mergeThreeWay, hbr, hlr, hsr, htool]

/-- C2 witness: a concrete state with a baseline and a conflicting tool;
the merge reports `Conflict` and leaves the filesystem unchanged. -/
theorem merge_conflict_preserves_main_witness :
    (FS.mk
        [(["h", ".claude", "projects", "-wt", "memory", "mem.md"],
            Node.file "right" 0),
          (["snb", "r", "b", "claude-memory", "mem.md"], Node.file "base" 0),
          (["h", ".claude", "projects", "-main", "memory", "mem.md"],
            Node.file "left" 0)] []).stat
      (["h", ".claude", "projects", "-main", "memory", "mem.md"]) =
        .ok (.file "left" 0) ∧
    MergeMemoryBack ⟨["main"], "r", ["wtb"], ["snb"]⟩ ["h"]
        (some fun _ _ _ => none) 7
        ⟨[(["h", ".claude", "projects", "-wt", "memory", "mem.md"],
            Node.file "right" 0),
          (["snb", "r", "b", "claude-memory", "mem.md"], Node.file "base" 0),
          (["h", ".claude", "projects", "-main", "memory", "mem.md"],
            Node.file "left" 0)], []⟩
        ["wt"] "mem.md" "b" =
      (⟨.Conflict, none⟩,
        ⟨[(["h", ".claude", "projects", "-wt", "memory", "mem.md"],
            Node.file "right" 0),
          (["snb", "r", "b", "claude-memory", "mem.md"], Node.file "base" 0),
          (["h", ".claude", "projects", "-main", "memory", "mem.md"],
            Node.file "left" 0)], []⟩) :=
  ⟨by decide,
    merge_conflict_preserves_main ⟨["main"], "r", ["wtb"], ["snb"]⟩ ["h"]
      (fun _ _ _ => none) 7 _ ["wt"] "mem.md" "b" "right" "base" "left" 0 0 0
      (by decide) (by decide) (by decide) rfl⟩

/-- C3: for a file entry present in the worktree with no snapshot
baseline or no merge tool available, the worktree's version is copied
directly over main's, creating main's parent directories, and the result
is `Copied` — no other outcome occurs on this path. -/
theorem merge_fallback_copies (m : Manager) (home : FsPath)
    (tool : Option MergeTool) (now : Nat) (fs : FS) (wtPath : FsPath)
    (file branch : String) (sc : String) (st : Nat)
    (hsrc : fs.stat (ClaudeMemoryDir home (pathStr wtPath) ++ splitSegs file) =
      .ok (.file sc st))
    (hfb : fs.stat (MemorySnapshotPath m branch ++ splitSegs file) = .notExist ∨
      fs.stat (MemorySnapshotPath m branch ++ splitSegs file) = .ioErr ∨
      tool = none) :
    MergeMemoryBack m home tool now fs wtPath file branch =
      (⟨.Copied, none⟩,
        (fs.mkdirAll
            (ClaudeMemoryDir home (pathStr m.RepoRoot) ++ splitSegs file).dropLast).insert
          (ClaudeMemoryDir home (pathStr m.RepoRoot) ++ splitSegs file)
          (.file sc now)) ∧
    ((MergeMemoryBack m home tool now fs wtPath file branch).2).find
        (ClaudeMemoryDir home (pathStr m.RepoRoot) ++ splitSegs file) =
      some (.file sc now) := by
  have hsr := stat_ok_file_readFile fs _ sc st hsrc
  have hsr2 := mkdirAll_readFile_ok fs
    (ClaudeMemoryDir home (pathStr m.RepoRoot) ++ splitSegs file).dropLast
    (ClaudeMemoryDir home (pathStr wtPath) ++ splitSegs file) sc hsr
  have hmain : MergeMemoryBack m home tool now fs wtPath file branch =
      (⟨.Copied, none⟩,
        (fs.mkdirAll
            (ClaudeMemoryDir home (pathStr m.RepoRoot) ++ splitSegs file).dropLast).insert
          (ClaudeMemoryDir home (pathStr m.RepoRoot) ++ splitSegs file)
          (.file sc now)) := by
    rcases hfb with hfb | hfb | hfb
    · simp only [MergeMemoryBack, hsrc, hfb, hsr2]
    · simp only [MergeMemoryBack, hsrc, hfb, hsr2]
    · subst hfb
      cases hst : fs.stat (MemorySnapshotPath m branch ++ splitSegs file) <;>
        simp only [MergeMemoryBack, hsrc, hst, hsr2]
  refine ⟨hmain, ?_⟩
  rw [hmain, insert_find, if_pos rfl]

/-- C3 witness: a concrete state with no snapshot and no merge tool; the
fallback copies the worktree's bytes over main's version. -/
theorem merge_fallback_copies_witness :
    (FS.mk [(["h", ".claude", "projects", "-wt", "memory", "mem.md"],
        Node.file "wtver" 3)] []).stat
      (["h", ".claude", "projects", "-wt", "memory", "mem.md"]) =
        .ok (.file "wtver" 3) ∧
    (MergeMemoryBack ⟨["main"], "r", ["wtb"], ["snb"]⟩ ["h"] none 9
        ⟨[(["h", ".claude", "projects", "-wt", "memory", "mem.md"],
            Node.file "wtver" 3)], []⟩
        ["wt"] "mem.md" "b").1 = ⟨.Copied, none⟩ ∧
    ((MergeMemoryBack ⟨["main"], "r", ["wtb"], ["snb"]⟩ ["h"] none 9
        ⟨[(["h", ".claude", "projects", "-wt", "memory", "mem.md"],
            Node.file "wtver" 3)], []⟩
        ["wt"] "mem.md" "b").2).find
      (["h", ".claude", "projects", "-main", "memory", "mem.md"]) =
        some (.file "wtver" 9) := by
  have h := merge_fallback_copies ⟨["main"], "r", ["wtb"], ["snb"]⟩ ["h"]
    none 9
    ⟨[(["h", ".claude", "projects", "-wt", "memory", "mem.md"],
        Node.file "wtver" 3)], []⟩
    ["wt"] "mem.md" "b" "wtver" 3 (by decide) (Or.inr (Or.inr rfl))
  exact ⟨by decide, by rw [h.1], h.2⟩

/-! ### C4 and C5: worktree creation and removal -/

/-- C4: `Create` with empty base branch and no existing worktree resolves
the branch in exactly the order local → remote → new: attach to a local
branch when one exists, else create a tracking branch from
`origin/<branch>` when the remote one exists, else create a brand-new
branch from the current head. -/
theorem create_branch_resolution (m : Manager) (g : Git) (fs : FS)
    (branch : String)
    (h : fs.existsP (m.WorktreePath branch) = false) :
    (Create m g fs branch "").1 =
      .ok (m.WorktreePath branch)
        (if g.BranchExists branch then .attachLocal
         else if g.RemoteBranchExists branch then .trackRemote
         else .newFromHead) := by
  by_cases hl : g.BranchExists branch <;>
    by_cases hr : g.RemoteBranchExists branch <;>
      simp [Create, h, hl, hr]

/-- C4 witness: with the branch existing only on the remote, `Create`
attaches a tracking worktree. -/
theorem create_branch_resolution_witness :
    (FS.mk [] []).existsP
      ((Manager.mk ["main"] "r" ["wtb"] ["snb"]).WorktreePath "b") = false ∧
    (Create ⟨["main"], "r", ["wtb"], ["snb"]⟩ ⟨[], ["origin/b"], [], [], []⟩
        ⟨[], []⟩ "b" "").1 =
      .ok (["wtb", "r", "b"]) .trackRemote :=
  ⟨by decide,
    by
      have h := create_branch_resolution ⟨["main"], "r", ["wtb"], ["snb"]⟩
        ⟨[], ["origin/b"], [], [], []⟩ ⟨[], []⟩ "b" (by decide)
      rw [h]
      decide⟩

/-- C5 counterexample: the claim that a `BaseBranchNotFound` failure
changes no filesystem state is false — `Create` runs `os.MkdirAll` on
the worktree's parent directory before resolving the base branch, so a
failed create with an unresolvable base leaves a newly created directory
(`<base>/<repo>`) behind. -/
theorem create_base_branch_side_effect :
    (Create ⟨["repo"], "r", ["wtbase"], ["snapbase"]⟩ ⟨[], [], [], [], []⟩
        ⟨[], []⟩ "b" "base").1 = .baseBranchNotFound ∧
    ((Create ⟨["repo"], "r", ["wtbase"], ["snapbase"]⟩ ⟨[], [], [], [], []⟩
        ⟨[], []⟩ "b" "base").2.1).find ["wtbase", "r"] = some .dir ∧
    (FS.mk [] []).find ["wtbase", "r"] = none := by
  decide

/-- C5 (amended): `AlreadyExists` on `Create` and `NotFound` on `Remove`
are returned immediately with no state change at all; `BaseBranchNotFound`
is returned without creating a partial worktree directory or touching VCS
state, but only after the worktree's parent directory has been created by
`os.MkdirAll` (the one side effect the code performs before the check). -/
theorem precondition_failure_side_effects (m : Manager) (g : Git) (fs : FS)
    (branch baseBranch : String) (force : Bool) :
    (fs.existsP (m.WorktreePath branch) = true →
      Create m g fs branch baseBranch = (.alreadyExists, fs, g)) ∧
    (fs.existsP (m.WorktreePath branch) = false →
      Remove m g fs branch force = (.notFound, fs)) ∧
    (fs.existsP (m.WorktreePath branch) = false → baseBranch ≠ "" →
      g.BranchExists baseBranch = false →
      baseBranch ∉ g.originBranches →
      Create m g fs branch baseBranch =
        (.baseBranchNotFound,
          fs.mkdirAll (m.WorktreePath branch).dropLast, g)) := by
  refine ⟨fun h1 => ?_, fun h2 => ?_, fun h3 hne hl ho => ?_⟩
  · simp [Create, h1]
  · simp [Remove, h2]
  · have hb : (baseBranch != "") = true := bne_iff_ne.mpr hne
    simp [Create, Git.fetchBranch, h3, hb, hl, ho]

/-- C5 witness: at concrete states, an existing worktree makes `Create`
return `alreadyExists` unchanged, a missing worktree makes `Remove`
return `notFound` unchanged, and an unresolvable base branch yields
`baseBranchNotFound` with exactly the parent-directory creation. -/
theorem precondition_failure_side_effects_witness :
    Create ⟨["repo"], "r", ["wtbase"], ["snapbase"]⟩ ⟨[], [], [], [], []⟩
        ⟨[(["wtbase", "r", "b"], Node.dir)], []⟩ "b" "" =
      (.alreadyExists, ⟨[(["wtbase", "r", "b"], Node.dir)], []⟩,
        ⟨[], [], [], [], []⟩) ∧
    Remove ⟨["repo"], "r", ["wtbase"], ["snapbase"]⟩ ⟨[], [], [], [], []⟩
        ⟨[], []⟩ "b" false = (.notFound, ⟨[], []⟩) ∧
    Create ⟨["repo"], "r", ["wtbase"], ["snapbase"]⟩ ⟨[], [], [], [], []⟩
        ⟨[], []⟩ "b" "base" =
      (.baseBranchNotFound,
        (FS.mk [] []).mkdirAll (["wtbase", "r", "b"] : FsPath).dropLast,
        ⟨[], [], [], [], []⟩) := by
  refine ⟨?_, ?_, ?_⟩
  · exact (precondition_failure_side_effects ⟨["repo"], "r", ["wtbase"], ["snapbase"]⟩
      ⟨[], [], [], [], []⟩ ⟨[(["wtbase", "r", "b"], Node.dir)], []⟩ "b" "" false).1
      (by decide)
  · exact (precondition_failure_side_effects ⟨["repo"], "r", ["wtbase"], ["snapbase"]⟩
      ⟨[], [], [], [], []⟩ ⟨[], []⟩ "b" "" false).2.1 (by decide)
  · exact (precondition_failure_side_effects ⟨["repo"], "r", ["wtbase"], ["snapbase"]⟩
      ⟨[], [], [], [], []⟩ ⟨[], []⟩ "b" "base" false).2.2 (by decide)
      (by decide) (by decide) (by decide)

/-! ### C6: the prune commit step -/

/-- C6: for a prune candidate that reaches the commit step (the worktree
exists and removal is not refused), the pass removes the worktree,
force-deletes the local branch, and discards the branch's snapshot: after
the commit no path at or below the branch's snapshot directory remains. -/
theorem prune_commit_discards_snapshot (m : Manager) (g : Git) (fs : FS)
    (branch : String) (force : Bool)
    (h1 : fs.existsP (m.WorktreePath branch) = true)
    (h2 : (!force && g.HasUncommittedChanges (m.WorktreePath branch)) = false) :
    (pruneCommit m g fs branch force).1 = .ok ∧
    (pruneCommit m g fs branch force).2.1.localBranches =
      g.localBranches.erase branch ∧
    (pruneCommit m g fs branch force).2.2.find (m.WorktreePath branch) = none ∧
    ∀ q : FsPath, (SnapshotPath m branch).isPrefixOf q = true →
      (pruneCommit m g fs branch force).2.2.find q = none := by
  have hrem : Remove m g fs branch force =
      (.ok, fs.removeAll (m.WorktreePath branch)) := by
    simp [Remove, h1, h2]
  have hpc : pruneCommit m g fs branch force =
      (.ok, { g with localBranches := g.localBranches.erase branch },
        RemoveSnapshot m (fs.removeAll (m.WorktreePath branch)) branch) := by
    unfold pruneCommit
    rw [hrem]
  refine ⟨by rw [hpc], by rw [hpc], ?_, ?_⟩
  · rw [hpc]
    show (RemoveSnapshot m (fs.removeAll (m.WorktreePath branch)) branch).find
      (m.WorktreePath branch) = none
    unfold RemoveSnapshot
    rw [removeAll_find]
    by_cases hsp : (SnapshotPath m branch).isPrefixOf (m.WorktreePath branch) = true
    · rw [if_pos hsp]
    · rw [if_neg hsp, removeAll_find, if_pos (isPrefixOf_self _)]
  · intro q hq
    rw [hpc]
    show (RemoveSnapshot m (fs.removeAll (m.WorktreePath branch)) branch).find
      q = none
    unfold RemoveSnapshot
    rw [removeAll_find, if_pos hq]

/-- C6 witness: at a concrete state (worktree present, forced), the
commit step reports success, erases the branch, removes the worktree
directory and leaves no snapshot file behind. -/
theorem prune_commit_discards_snapshot_witness :
    (pruneCommit ⟨["main"], "r", ["wtb"], ["snb"]⟩ ⟨["b"], [], [], [], []⟩
        ⟨[(["wtb", "r", "b"], Node.dir),
          (["snb", "r", "b", "claude-memory", "f.md"], Node.file "x" 0)], []⟩
        "b" true).1 = .ok ∧
    (pruneCommit ⟨["main"], "r", ["wtb"], ["snb"]⟩ ⟨["b"], [], [], [], []⟩
        ⟨[(["wtb", "r", "b"], Node.dir),
          (["snb", "r", "b", "claude-memory", "f.md"], Node.file "x" 0)], []⟩
        "b" true).2.1.localBranches = [] ∧
    (pruneCommit ⟨["main"], "r", ["wtb"], ["snb"]⟩ ⟨["b"], [], [], [], []⟩
        ⟨[(["wtb", "r", "b"], Node.dir),
          (["snb", "r", "b", "claude-memory", "f.md"], Node.file "x" 0)], []⟩
        "b" true).2.2.find (["snb", "r", "b", "claude-memory", "f.md"]) =
      none := by
  have h := prune_commit_discards_snapshot ⟨["main"], "r", ["wtb"], ["snb"]⟩
    ⟨["b"], [], [], [], []⟩
    ⟨[(["wtb", "r", "b"], Node.dir),
      (["snb", "r", "b", "claude-memory", "f.md"], Node.file "x" 0)], []⟩
    "b" true (by decide) (by decide)
  refine ⟨h.1, ?_, h.2.2.2 (["snb", "r", "b", "claude-memory", "f.md"]) (by decide)⟩
  rw [h.2.1]
  decide

/-! ### C7: error handling of change detection -/

theorem detectChangesGo_error_nil (m : Manager) (fs : FS) (wtPath : FsPath)
    (files : List String) (acc : List FileChange)
    (h : (DetectChangesGo m fs wtPath files acc).2.isSome = true) :
    (DetectChangesGo m fs wtPath files acc).1 = [] := by
  induction files generalizing acc with
  | nil => simp [DetectChangesGo] at h
  | cons f rest ih =>
    simp only [DetectChangesGo] at h ⊢
    cases hst : fs.stat (wtPath ++ splitSegs f) with
    | notExist =>
      rw [hst] at h
      exact ih acc h
    | ioErr => rfl
    | ok n =>
      rw [hst] at h
      cases n with
      | dir =>
        rcases hdd : detectDirChanges fs (m.RepoRoot ++ splitSegs f)
            (wtPath ++ splitSegs f) f with ⟨cs, e⟩
        rw [hdd] at h
        cases e with
        | none => exact ih (acc ++ cs) h
        | some u => rfl
      | file c t =>
        cases hfc : detectFileChange fs (m.RepoRoot ++ splitSegs f)
            (wtPath ++ splitSegs f) f with
        | error u => rfl
        | ok o =>
          rw [hfc] at h
          cases o with
          | none => exact ih acc h
          | some c2 => exact ih (acc ++ [c2]) h

/-- C7 counterexample: the claim's all-or-nothing guarantee fails for the
assistant-memory variant. In a state where the worktree memory directory
holds a changed file `a.md` followed in walk order by an unreadable file
`b.md`, `DetectMemoryChanges` returns the I/O error *together with* the
non-empty partial change list accumulated before the failure. -/
theorem detect_memory_changes_partial_result :
    DetectMemoryChanges ⟨["main"], "r", ["wtb"], ["snb"]⟩ ["h"]
        ⟨[(["h", ".claude", "projects", "-wt", "memory"], Node.dir),
          (["h", ".claude", "projects", "-wt", "memory", "a.md"],
            Node.file "x" 0),
          (["h", ".claude", "projects", "-wt", "memory", "b.md"],
            Node.file "y" 0),
          (["h", ".claude", "projects", "-main", "memory", "a.md"],
            Node.file "z" 0)],
          [["h", ".claude", "projects", "-wt", "memory", "b.md"]]⟩
        ["wt"] "b" = ([⟨"a.md", false⟩], some ()) ∧
    ([⟨"a.md", false⟩] : List FileChange) ≠ [] := by
  decide

/-- C7 (amended): `DetectChanges` is all-or-nothing — whenever it returns
an error, the returned change list is empty (`nil`), so no partial result
is handed to the caller; the assistant-memory variant
`DetectMemoryChanges`, however, returns the error together with the
changes accumulated before the failure. -/
theorem detect_changes_all_or_nothing (m : Manager) (fs : FS)
    (wtPath : FsPath) (files : List String)
    (h : (DetectChanges m fs wtPath files).2.isSome = true) :
    (DetectChanges m fs wtPath files).1 = [] :=
  detectChangesGo_error_nil m fs wtPath files [] h

/-- C7 witness: a concrete scan in which the first tracked entry yields a
change and the second hits an I/O error: the error is reported and the
result list is empty. -/
theorem detect_changes_all_or_nothing_witness :
    (DetectChanges ⟨["main"], "r", ["wtb"], ["snb"]⟩
        ⟨[(["wt", "a"], Node.file "1" 0), (["main", "a"], Node.file "2" 0),
          (["wt", "bad"], Node.file "3" 0)], [["wt", "bad"]]⟩
        ["wt"] ["a", "bad"]).2.isSome = true ∧
    (DetectChanges ⟨["main"], "r", ["wtb"], ["snb"]⟩
        ⟨[(["wt", "a"], Node.file "1" 0), (["main", "a"], Node.file "2" 0),
          (["wt", "bad"], Node.file "3" 0)], [["wt", "bad"]]⟩
        ["wt"] ["a", "bad"]).1 = [] :=
  ⟨by decide,
    detect_changes_all_or_nothing ⟨["main"], "r", ["wtb"], ["snb"]⟩
      ⟨[(["wt", "a"], Node.file "1" 0), (["main", "a"], Node.file "2" 0),
        (["wt", "bad"], Node.file "3" 0)], [["wt", "bad"]]⟩
      ["wt"] ["a", "bad"] (by decide)⟩

/-! ### C8: new-file detection -/

/-- C8: a tracked file present in the worktree but absent from main is
reported as a change with `Conflict = false` — both by the per-file
detector used at every call site and by `DetectChanges` on that entry;
such a file is never flagged as a conflict. -/
theorem new_file_never_conflict (m : Manager) (fs : FS) (wtPath : FsPath)
    (file : String) (c : String) (t : Nat)
    (hdst : fs.stat (wtPath ++ splitSegs file) = .ok (.file c t))
    (hsrc : fs.readFile (m.RepoRoot ++ splitSegs file) = .notExist) :
    detectFileChange fs (m.RepoRoot ++ splitSegs file)
        (wtPath ++ splitSegs file) file = .ok (some ⟨file, false⟩) ∧
    DetectChanges m fs wtPath [file] = ([⟨file, false⟩], none) := by
  have hread := stat_ok_file_readFile fs _ c t hdst
  have hfc : detectFileChange fs (m.RepoRoot ++ splitSegs file)
      (wtPath ++ splitSegs file) file = .ok (some ⟨file, false⟩) := by
    unfold detectFileChange
    rw [hread, hsrc]
  refine ⟨hfc, ?_⟩
  simp only [DetectChanges, DetectChangesGo, hdst, hfc, List.nil_append]

/-- C8 witness: a file existing only in the worktree is reported as a
non-conflicting change. -/
theorem new_file_never_conflict_witness :
    (FS.mk [(["wt", "notes.md"], Node.file "x" 0)] []).stat
      (["wt"] ++ splitSegs "notes.md") = .ok (.file "x" 0) ∧
    DetectChanges ⟨["main"], "r", ["wtb"], ["snb"]⟩
        ⟨[(["wt", "notes.md"], Node.file "x" 0)], []⟩ ["wt"] ["notes.md"] =
      ([⟨"notes.md", false⟩], none) :=
  ⟨by decide,
    (new_file_never_conflict ⟨["main"], "r", ["wtb"], ["snb"]⟩
      ⟨[(["wt", "notes.md"], Node.file "x" 0)], []⟩ ["wt"] "notes.md" "x" 0
      (by decide) (by decide)).2⟩

/-! ### C9: Create/List round-trip -/

theorem splitSegsAux_ne_nil (l acc : List Char) : splitSegsAux l acc ≠ [] := by
  induction l generalizing acc with
  | nil => simp [splitSegsAux]
  | cons c cl ih =>
    unfold splitSegsAux
    by_cases hc : c = '/'
    · rw [if_pos hc]; simp
    · rw [if_neg hc]; exact ih _

theorem splitSegsAux_singleton (l : List Char) : ∀ (acc : List Char) (x : String),
    splitSegsAux l acc = [x] → x.data = acc.reverse ++ l := by
  induction l with
  | nil =>
    intro acc x h
    unfold splitSegsAux at h
    injection h with h1 _
    rw [← h1]
    simp
  | cons c cl ih =>
    intro acc x h
    unfold splitSegsAux at h
    by_cases hc : c = '/'
    · rw [if_pos hc] at h
      injection h with _ h2
      exact absurd h2 (splitSegsAux_ne_nil cl [])
    · rw [if_neg hc] at h
      have h3 := ih (c :: acc) x h
      rw [h3]
      simp

theorem splitSegs_eq_singleton (b x : String) (h : splitSegs b = [x]) :
    x = b := by
  have h2 := splitSegsAux_singleton b.data [] x h
  simp at h2
  cases x with
  | mk xd =>
    cases b with
    | mk bd => simp_all

theorem mkdirAll_preserves_none_or_dir (fs : FS) (p q : FsPath)
    (h : fs.find q = none ∨ fs.find q = some .dir) :
    (fs.mkdirAll p).find q = none ∨ (fs.mkdirAll p).find q = some .dir := by
  rw [mkdirAll_find]
  rcases h with h | h
  · by_cases hm : q ∈ pathHeads p
    · right; simp [hm, h]
    · left; simp [hm, h]
  · right; simp [h]

theorem mkdirAll_dir_result (fs : FS) (p q : FsPath)
    (hmem : q ∈ pathHeads p)
    (h : fs.find q = none ∨ fs.find q = some .dir) :
    (fs.mkdirAll p).find q = some .dir := by
  rw [mkdirAll_find]
  rcases h with h | h
  · simp [hmem, h]
  · simp [h]

theorem listWorktrees_mem_of_find (m : Manager) (fs : FS) (s : String)
    (hB : (m.WorktreeBase ++ [m.RepoName]) ∉ fs.broken)
    (hdir : fs.find (m.WorktreeBase ++ [m.RepoName]) = some .dir)
    (hchild : fs.find (m.WorktreeBase ++ [m.RepoName] ++ [s]) = some .dir) :
    WorktreeInfo.mk (m.WorktreeBase ++ [m.RepoName] ++ [s]) s ∈
      (listWorktrees m fs).1 := by
  have hstat : fs.stat (m.WorktreeBase ++ [m.RepoName]) = .ok .dir := by
    unfold FS.stat
    rw [if_neg hB, hdir]
  have hcn : childName (m.WorktreeBase ++ [m.RepoName])
      (m.WorktreeBase ++ [m.RepoName] ++ [s]) = some s := by
    unfold childName
    rw [if_pos (isPrefixOf_append _ _), List.drop_left]
  simp only [listWorktrees, hstat]
  refine List.mem_filterMap.mpr
    ⟨(m.WorktreeBase ++ [m.RepoName] ++ [s], Node.dir),
      lookupNode_mem _ _ _ hchild, ?_⟩
  rw [hcn]
  rfl

theorem listWorktrees_path_shape (m : Manager) (fs : FS) (w : WorktreeInfo)
    (hw : w ∈ (listWorktrees m fs).1) :
    ∃ name, w.Path = m.WorktreeBase ++ [m.RepoName] ++ [name] := by
  simp only [listWorktrees] at hw
  cases hstat : fs.stat (m.WorktreeBase ++ [m.RepoName]) with
  | notExist => rw [hstat] at hw; simp at hw
  | ioErr => rw [hstat] at hw; simp at hw
  | ok n =>
    rw [hstat] at hw
    cases n with
    | file c t => simp at hw
    | dir =>
      obtain ⟨e, he, heq⟩ := List.mem_filterMap.mp hw
      rcases hcn : childName (m.WorktreeBase ++ [m.RepoName]) e.1 with _ | name
      · rw [hcn] at heq; exact absurd heq (by simp)
      · rw [hcn] at heq
        by_cases hdir2 : (e.2 == Node.dir) = true
        · simp only [hdir2, if_true] at heq
          injection heq with heq2
          exact ⟨name, by rw [← heq2]⟩
        · simp [hdir2] at heq

/-- C9: `Create` and `List` round-trip only for flat branch names. For a
branch whose name has no `/` (its segment list is a singleton), a
successful `Create` yields a worktree that `List` reports with `Branch`
equal to the branch name and `Path` equal to `WorktreePath branch`. For
a nested branch name (segment list `s :: rest` with `rest ≠ []`),
`Create` places the worktree in a nested directory but `List`, which
enumerates only the immediate subdirectories of the repository's
worktree base, reports the first segment `s` as the branch, and no entry
has the full worktree path and branch name. -/
theorem create_list_round_trip (m : Manager) (g : Git) (fs : FS)
    (branch s : String) (rest : List String)
    (hsplit : splitSegs branch = s :: rest)
    (hfind : fs.find (m.WorktreePath branch) = none)
    (hdirB : (m.WorktreeBase ++ [m.RepoName]) ∉ fs.broken)
    (hdir : fs.find (m.WorktreeBase ++ [m.RepoName]) = none ∨
      fs.find (m.WorktreeBase ++ [m.RepoName]) = some .dir)
    (hchild : fs.find (m.WorktreeBase ++ [m.RepoName] ++ [s]) = none ∨
      fs.find (m.WorktreeBase ++ [m.RepoName] ++ [s]) = some .dir) :
    (rest = [] →
      s = branch ∧
      m.WorktreePath branch = m.WorktreeBase ++ [m.RepoName] ++ [branch] ∧
      WorktreeInfo.mk (m.WorktreePath branch) branch ∈
        (listWorktrees m ((Create m g fs branch "").2.1)).1) ∧
    (rest ≠ [] →
      WorktreeInfo.mk (m.WorktreeBase ++ [m.RepoName] ++ [s]) s ∈
        (listWorktrees m ((Create m g fs branch "").2.1)).1 ∧
      WorktreeInfo.mk (m.WorktreePath branch) branch ∉
        (listWorktrees m ((Create m g fs branch "").2.1)).1) := by
  have hwt : m.WorktreePath branch =
      (m.WorktreeBase ++ [m.RepoName]) ++ (s :: rest) := by
    simp [Manager.WorktreePath, hsplit]
  have hex : fs.existsP (m.WorktreePath branch) = false := by
    unfold FS.existsP FS.stat
    by_cases hb : m.WorktreePath branch ∈ fs.broken
    · simp [hb]
    · simp [hb, hfind]
  have hfs2 : (Create m g fs branch "").2.1 =
      (fs.mkdirAll (m.WorktreePath branch).dropLast).mkdirAll
        (m.WorktreePath branch) := by
    by_cases hl : g.BranchExists branch <;>
      by_cases hr : g.RemoteBranchExists branch <;>
        simp [Create, hex, hl, hr]
  have hDne : (m.WorktreeBase ++ [m.RepoName] : FsPath) ≠ [] := by simp
  have hmem1 : (m.WorktreeBase ++ [m.RepoName] : FsPath) ∈
      pathHeads (m.WorktreePath branch) := by
    rw [hwt]
    exact append_mem_pathHeads _ _ hDne
  have hmem2 : (m.WorktreeBase ++ [m.RepoName] ++ [s] : FsPath) ∈
      pathHeads (m.WorktreePath branch) := by
    rw [hwt, List.append_cons]
    exact append_mem_pathHeads _ _ (by simp)
  have hdir2 : ((Create m g fs branch "").2.1).find
      (m.WorktreeBase ++ [m.RepoName]) = some .dir := by
    rw [hfs2]
    exact mkdirAll_dir_result _ _ _ hmem1
      (mkdirAll_preserves_none_or_dir fs _ _ hdir)
  have hchild2 : ((Create m g fs branch "").2.1).find
      (m.WorktreeBase ++ [m.RepoName] ++ [s]) = some .dir := by
    rw [hfs2]
    exact mkdirAll_dir_result _ _ _ hmem2
      (mkdirAll_preserves_none_or_dir fs _ _ hchild)
  have hBr2 : (m.WorktreeBase ++ [m.RepoName]) ∉
      ((Create m g fs branch "").2.1).broken := by
    rw [hfs2, mkdirAll_broken, mkdirAll_broken]
    exact hdirB
  constructor
  · intro hrest
    subst hrest
    have hsb : s = branch := splitSegs_eq_singleton branch s hsplit
    subst hsb
    refine ⟨rfl, by rw [hwt], ?_⟩
    have hmem := listWorktrees_mem_of_find m _ s hBr2 hdir2 hchild2
    rw [hwt]
    exact hmem
  · intro hrest
    refine ⟨listWorktrees_mem_of_find m _ s hBr2 hdir2 hchild2, ?_⟩
    intro hmem
    obtain ⟨name, hshape⟩ := listWorktrees_path_shape m _ _ hmem
    simp only at hshape
    rw [hwt] at hshape
    have h2 := List.append_cancel_left hshape
    injection h2 with _ h3
    exact hrest h3

/-- C9 witness: the flat branch `b` round-trips through `Create` and
`List`; the nested branch `a/b` is created but `List` reports branch `a`
and no entry carries the nested path with branch `a/b`. -/
theorem create_list_round_trip_witness :
    splitSegs "b" = ["b"] ∧
    WorktreeInfo.mk (["wtb", "r", "b"]) "b" ∈
      (listWorktrees ⟨["main"], "r", ["wtb"], ["snb"]⟩
        ((Create ⟨["main"], "r", ["wtb"], ["snb"]⟩ ⟨[], [], [], [], []⟩
          ⟨[], []⟩ "b" "").2.1)).1 ∧
    splitSegs "a/b" = ["a", "b"] ∧
    WorktreeInfo.mk (["wtb", "r", "a"]) "a" ∈
      (listWorktrees ⟨["main"], "r", ["wtb"], ["snb"]⟩
        ((Create ⟨["main"], "r", ["wtb"], ["snb"]⟩ ⟨[], [], [], [], []⟩
          ⟨[], []⟩ "a/b" "").2.1)).1 ∧
    WorktreeInfo.mk (["wtb", "r", "a", "b"]) "a/b" ∉
      (listWorktrees ⟨["main"], "r", ["wtb"], ["snb"]⟩
        ((Create ⟨["main"], "r", ["wtb"], ["snb"]⟩ ⟨[], [], [], [], []⟩
          ⟨[], []⟩ "a/b" "").2.1)).1 := by
  have h := create_list_round_trip ⟨["main"], "r", ["wtb"], ["snb"]⟩
    ⟨[], [], [], [], []⟩ ⟨[], []⟩ "b" "b" [] (by decide) (by decide)
    (by decide) (Or.inl (by decide)) (Or.inl (by decide))
  have h2 := create_list_round_trip ⟨["main"], "r", ["wtb"], ["snb"]⟩
    ⟨[], [], [], [], []⟩ ⟨[], []⟩ "a/b" "a" ["b"] (by decide) (by decide)
    (by decide) (Or.inl (by decide)) (Or.inl (by decide))
  exact ⟨by decide, (h.1 rfl).2.2, by decide, (h2.2 (by simp)).1,
    (h2.2 (by simp)).2⟩

/-! ### C10: the path-encoding function -/

/-- C10: `encodeClaudePath` is not injective — the distinct absolute
paths `/a.b` and `/a/b` (a `.` versus a `/`) encode to the same string,
so `ClaudeMemoryDir` maps the two distinct projects to the same memory
directory. (Totality and determinism hold by construction: it is a plain
function of its argument.) -/
theorem encodeClaudePath_not_injective :
    encodeClaudePath "/a.b" = encodeClaudePath "/a/b" ∧
    ("/a.b" : String) ≠ "/a/b" ∧
    ClaudeMemoryDir ["home", "u"] "/a.b" =
      ClaudeMemoryDir ["home", "u"] "/a/b" := by
  decide

end WtSpec
